import Mathlib

/-!
Shallow embedding of the statistical analysis engine of the VI-RADS course
application (`components/AnalysisScreen.tsx`, with the data model from
`types.ts` and case ingestion from `components/UploadScreen.tsx`).

Modelling conventions:
* JS numbers that only ever hold integer counts/scores are embedded as `ℕ`;
  values produced by field arithmetic (ratios, metrics, AUC) are embedded as
  exact rationals `ℚ`; values flowing through `Math.sqrt` / `Math.exp` /
  `Math.log` / `Math.sin` / `Math.pow` are embedded as reals `ℝ`.
* The JS `Record<number, Evaluation>` is embedded as an association list
  `List (ℕ × Evaluation)`; `evaluations[k]` becomes `List.lookup k`
  (first binding wins; a JS `Record` has unique keys).
* The IEEE `Infinity` sentinel returned by the t-tests on zero variance is
  embedded as `⊤ : EReal`, so a t statistic lives in `EReal`.
* JS `array.sort(comparator)` (stable since ES2019) is embedded as a stable
  insertion sort by the comparator key.
-/

namespace CursoVirads

/-- Pathology stages (`types.ts`: `APStage`). -/
inductive APStage
  | Ta | Tis | T1 | T2 | T3 | T4
  deriving DecidableEq, Repr

/-- Muscle-invasive stages (`types.ts`: `CVMI_STAGES = ['T2','T3','T4']`). -/
def CVMI_STAGES : List APStage := [.T2, .T3, .T4]

/-- Non-muscle-invasive stages (`types.ts`: `CVNMI_STAGES = ['Ta','Tis','T1']`). -/
def CVNMI_STAGES : List APStage := [.Ta, .Tis, .T1]

/-- Ground-truth positivity as computed at ingestion
(`UploadScreen.tsx`: `isCVMIPositive: CVMI_STAGES.includes(ap)`). -/
def isCVMI (ap : APStage) : Bool := CVMI_STAGES.contains ap

/-- A clinical case (`types.ts`: `CaseData`). -/
structure CaseData where
  caseNumber : ℕ
  ap : APStage
  isCVMIPositive : Bool
  deriving DecidableEq, Repr

/-- A per-(reader, case) evaluation (`types.ts`: `Evaluation`).
Scores use 0 as the "not yet evaluated" sentinel. -/
structure Evaluation where
  t2 : ℕ
  difusion : ℕ
  edc : ℕ
  viradsFinal : ℕ
  t2Confidence : ℕ
  difusionConfidence : ℕ
  edcConfidence : ℕ
  viradsFinalConfidence : ℕ
  imageQuality : ℕ
  readingTime : ℚ
  deriving DecidableEq, Repr

/-- One reader's evaluation map, the JS `Record<number, Evaluation>`. -/
abbrev Evaluations := List (ℕ × Evaluation)

/-- Confusion matrix counts (`types.ts`: `ConfusionMatrixData`). -/
structure ConfusionMatrixData where
  tp : ℕ
  fp : ℕ
  tn : ℕ
  fn : ℕ
  deriving DecidableEq, Repr

/-- Diagnostic accuracy metrics (`types.ts`: `AnalysisMetrics`). -/
structure AnalysisMetrics where
  sensitivity : ℚ
  specificity : ℚ
  ppv : ℚ
  npv : ℚ
  deriving DecidableEq, Repr

/-- Body of the `cases.forEach` loop of `getMatrixForEvaluations`
(`AnalysisScreen.tsx` lines 199-211).  The source first tests
`evaluatedCaseNumbers.includes(c.caseNumber)` and then guards
`!evaluation`; both collapse into the single `lookup` match here. -/
def classifyCase (evaluations : Evaluations) (cutoff : ℕ)
    (matrix : ConfusionMatrixData) (c : CaseData) : ConfusionMatrixData :=
  match evaluations.lookup c.caseNumber with
  | none => matrix
  | some evaluation =>
    if evaluation.viradsFinal = 0 then matrix
    else if cutoff ≤ evaluation.viradsFinal then
      if c.isCVMIPositive then { matrix with tp := matrix.tp + 1 }
      else { matrix with fp := matrix.fp + 1 }
    else
      if c.isCVMIPositive then { matrix with fn := matrix.fn + 1 }
      else { matrix with tn := matrix.tn + 1 }

/-- `getMatrixForEvaluations` (`AnalysisScreen.tsx` lines 191-213). -/
def getMatrixForEvaluations (evaluations : Evaluations) (cases : List CaseData)
    (cutoff : ℕ) : ConfusionMatrixData :=
  cases.foldl (classifyCase evaluations cutoff) ⟨0, 0, 0, 0⟩

/-- `calculateMetrics` (`AnalysisScreen.tsx` lines 169-189). -/
def calculateMetrics (matrix : ConfusionMatrixData) (prevalence : ℚ) :
    AnalysisMetrics :=
  let totalPositives : ℚ := (matrix.tp : ℚ) + (matrix.fn : ℚ)
  let totalNegatives : ℚ := (matrix.tn : ℚ) + (matrix.fp : ℚ)
  let sensitivity : ℚ := if 0 < totalPositives then (matrix.tp : ℚ) / totalPositives else 0
  let specificity : ℚ := if 0 < totalNegatives then (matrix.tn : ℚ) / totalNegatives else 0
  let ppvNumerator := sensitivity * prevalence
  let ppvDenominator := ppvNumerator + (1 - specificity) * (1 - prevalence)
  let ppv := if 0 < ppvDenominator then ppvNumerator / ppvDenominator else 0
  let npvNumerator := specificity * (1 - prevalence)
  let npvDenominator := npvNumerator + (1 - sensitivity) * prevalence
  let npv := if 0 < npvDenominator then npvNumerator / npvDenominator else 0
  ⟨sensitivity, specificity, ppv, npv⟩

/-- A case counts towards the confusion matrix iff it has an evaluation with a
non-sentinel final score: the predicate implicit in the two skip-guards of
`getMatrixForEvaluations`. -/
def isClassified (evaluations : Evaluations) (c : CaseData) : Bool :=
  match evaluations.lookup c.caseNumber with
  | some e => decide (0 < e.viradsFinal)
  | none => false

/-- Total count held by a confusion matrix. -/
def ConfusionMatrixData.total (m : ConfusionMatrixData) : ℕ :=
  m.tp + m.fp + m.tn + m.fn

/-- An evaluation with a given final VI-RADS score and all other fields at
their sentinel defaults. -/
def evalWithFinal (viradsFinal : ℕ) : Evaluation :=
  ⟨0, 0, 0, viradsFinal, 0, 0, 0, 0, 0, 0⟩

/-- The four cases of the end-to-end scenario of the spec. -/
def scenarioCases : List CaseData :=
  [⟨1, .T1, isCVMI .T1⟩, ⟨2, .T3, isCVMI .T3⟩, ⟨3, .T2, isCVMI .T2⟩,
   ⟨4, .Ta, isCVMI .Ta⟩]

/-- The single reader's evaluations of the end-to-end scenario: final VI-RADS
scores 2, 4, 5, 1 on cases 1-4. -/
def scenarioEvals : Evaluations :=
  [(1, evalWithFinal 2), (2, evalWithFinal 4), (3, evalWithFinal 5),
   (4, evalWithFinal 1)]

/-- A point on the ROC polyline: (false positive rate, true positive rate). -/
abbrev RocPoint := ℚ × ℚ

/-- The order on ROC points used by the JS comparator `(a, b) => a.fpr - b.fpr`. -/
def fprLE (a b : RocPoint) : Prop := a.1 ≤ b.1

instance : DecidableRel fprLE := fun a b => inferInstanceAs (Decidable (a.1 ≤ b.1))

instance : IsTotal RocPoint fprLE := ⟨fun a b => le_total a.1 b.1⟩

instance : IsTrans RocPoint fprLE := ⟨fun _ _ _ h1 h2 => le_trans h1 h2⟩

/-- Stable sort of ROC points by ascending false positive rate, the embedding
of `.sort((a, b) => a.fpr - b.fpr)` (stable in JS). -/
def sortByFpr (points : List RocPoint) : List RocPoint :=
  points.insertionSort fprLE

/-- First-occurrence deduplication of ROC points, the embedding of
`[...new Map(rocPoints.map(item => [`fpr-tpr`, item])).values()]`: the string
key identifies the point, so two entries collide exactly when the points are
equal, and the `Map` keeps each distinct point at its first position. -/
def dedupPoints : List RocPoint → List RocPoint
  | [] => []
  | p :: ps => p :: dedupPoints (ps.filter fun q => decide (q ≠ p))
termination_by l => l.length
decreasing_by
  simp only [List.length_cons]
  exact Nat.lt_succ_of_le (List.length_filter_le _ _)

/-- The trapezoidal sum of the `for` loop of `calculateAUC`:
`area += (p2.fpr - p1.fpr) * (p1.tpr + p2.tpr) / 2` over consecutive points. -/
def polyArea : List RocPoint → ℚ
  | [] => 0
  | [_] => 0
  | p :: q :: rest => (q.1 - p.1) * (p.2 + q.2) / 2 + polyArea (q :: rest)

/-- True positive rate of a matrix with the JS zero-denominator guard
(`matrix.tp / (matrix.tp + matrix.fn || 1)`). -/
def rocSensitivity (m : ConfusionMatrixData) : ℚ :=
  (m.tp : ℚ) / (if m.tp + m.fn = 0 then 1 else ((m.tp + m.fn : ℕ) : ℚ))

/-- True negative rate of a matrix with the JS zero-denominator guard
(`matrix.tn / (matrix.tn + matrix.fp || 1)`). -/
def rocSpecificity (m : ConfusionMatrixData) : ℚ :=
  (m.tn : ℚ) / (if m.tn + m.fp = 0 then 1 else ((m.tn + m.fp : ℕ) : ℚ))

/-- `Object.keys(evaluations).map(Number).filter(cn => evaluations[cn]?.viradsFinal > 0)`
from `calculateAUC`. -/
def aucEvaluatedCaseNumbers (evaluations : Evaluations) : List ℕ :=
  (evaluations.map Prod.fst).filter fun cn =>
    match evaluations.lookup cn with
    | some e => decide (0 < e.viradsFinal)
    | none => false

/-- `cases.filter(c => evaluatedCaseNumbers.includes(c.caseNumber))` from
`calculateAUC`. -/
def aucRelevantCases (evaluations : Evaluations) (cases : List CaseData) :
    List CaseData :=
  cases.filter fun c => (aucEvaluatedCaseNumbers evaluations).contains c.caseNumber

/-- The raw ROC point list built by `calculateAUC`: the (0,0) anchor, one
point per cutoff in {2,3,4,5} (in that order), then the (1,1) anchor. -/
def aucRocPoints (evaluations : Evaluations) (relevantCases : List CaseData) :
    List RocPoint :=
  (0, 0) :: (([2, 3, 4, 5].map fun cutoff =>
    let matrix := getMatrixForEvaluations evaluations relevantCases cutoff
    (1 - rocSpecificity matrix, rocSensitivity matrix)) ++ [(1, 1)])

/-- `calculateAUC` (`AnalysisScreen.tsx` lines 136-166). -/
def calculateAUC (evaluations : Evaluations) (cases : List CaseData) : ℚ :=
  let relevantCases := aucRelevantCases evaluations cases
  if relevantCases.length = 0 then 0.5
  else
    let totalPositives := (relevantCases.filter fun c => c.isCVMIPositive).length
    let totalNegatives := relevantCases.length - totalPositives
    if totalPositives = 0 ∨ totalNegatives = 0 then 0.5
    else polyArea (sortByFpr (dedupPoints (aucRocPoints evaluations relevantCases)))

/-- `mean` (`AnalysisScreen.tsx` line 21). -/
noncomputable def mean (data : List ℝ) : ℝ :=
  if data.length = 0 then 0 else data.sum / data.length

/-- `stdDev` (`AnalysisScreen.tsx` lines 22-27): unbiased sample standard
deviation, 0 for fewer than 2 observations. -/
noncomputable def stdDev (data : List ℝ) : ℝ :=
  if data.length < 2 then 0
  else
    let m := mean data
    let variance := (data.map fun val => (val - m) ^ 2).sum / ((data.length : ℝ) - 1)
    Real.sqrt variance

/-- The Lanczos branch (g = 7, 9-term coefficient table) of `logGamma`,
taken by the source for x ≥ 0.5 (`AnalysisScreen.tsx` lines 34-38): after
`x -= 1`, `a = p[0] + Σ p[i]/(x+i)`, `t = x + g + 0.5`, the result is
`log(sqrt(2π) · t^(x+0.5) · e^(−t) · a)`. -/
noncomputable def lanczosLogGamma (x : ℝ) : ℝ :=
  let x1 := x - 1
  let t := x1 + 7 + 0.5
  let a := 0.99999999999980993 + 676.5203681218851 / (x1 + 1) +
    (-1259.1392167224028) / (x1 + 2) + 771.32342877765313 / (x1 + 3) +
    (-176.61502916214059) / (x1 + 4) + 12.507343278686905 / (x1 + 5) +
    (-0.13857109526572012) / (x1 + 6) + 9.9843695780195716e-6 / (x1 + 7) +
    1.5056327351493116e-7 / (x1 + 8)
  Real.log (Real.sqrt (2 * Real.pi) * t ^ (x1 + 0.5) * Real.exp (-t) * a)

/-- `logGamma` (`AnalysisScreen.tsx` lines 30-39).  For x < 0.5 the source
returns `Math.PI / (Math.sin(Math.PI * x) * Math.exp(logGamma(1 - x)))`;
since then 1 − x > 0.5, the recursive call always lands in the Lanczos
branch, so the recursion is written out here as `lanczosLogGamma (1 - x)`. -/
noncomputable def logGamma (x : ℝ) : ℝ :=
  if x < 0.5 then
    Real.pi / (Real.sin (Real.pi * x) * Real.exp (lanczosLogGamma (1 - x)))
  else lanczosLogGamma x

/-- The FPMIN floor of `betacf`: `if (Math.abs(v) < FPMIN) v = FPMIN` with
FPMIN = 1e-30. -/
noncomputable def fpminGuard (v : ℝ) : ℝ := if |v| < 1e-30 then 1e-30 else v

/-- The `for` loop of `betacf` (`AnalysisScreen.tsx` lines 48-66); `m` counts
up from 1, `fuel` counts the remaining iterations (MAXIT = 100), and the loop
breaks when `|del - 1| < EPS` with EPS = 3e-7.  The state is the current
`c`, `d` (already inverted) and `h`. -/
noncomputable def betacfLoop (x a b qab qap qam : ℝ) :
    ℕ → ℕ → ℝ → ℝ → ℝ → ℝ
  | 0, _, _, _, h => h
  | fuel + 1, m, c, d, h =>
    let m2 : ℝ := 2 * (m : ℝ)
    let aa1 := (m : ℝ) * (b - (m : ℝ)) * x / ((qam + m2) * (a + m2))
    let d1 := 1 / fpminGuard (1 + aa1 * d)
    let c1 := fpminGuard (1 + aa1 / c)
    let h1 := h * d1 * c1
    let aa2 := -(a + (m : ℝ)) * (qab + (m : ℝ)) * x / ((a + m2) * (qap + m2))
    let d2 := 1 / fpminGuard (1 + aa2 * d1)
    let c2 := fpminGuard (1 + aa2 / c1)
    let del := d2 * c2
    let h2 := h1 * del
    if |del - 1| < 3e-7 then h2
    else betacfLoop x a b qab qap qam fuel (m + 1) c2 d2 h2

/-- `betacf` (`AnalysisScreen.tsx` lines 41-68): continued-fraction kernel of
the regularized incomplete beta function. -/
noncomputable def betacf (x a b : ℝ) : ℝ :=
  let qab := a + b
  let qap := a + 1
  let qam := a - 1
  let c : ℝ := 1
  let d := 1 / fpminGuard (1 - qab * x / qap)
  let h := d
  betacfLoop x a b qab qap qam 100 1 c d h

/-- `betinc` (`AnalysisScreen.tsx` lines 70-74): regularized incomplete beta
function I_x(a,b). -/
noncomputable def betinc (x a b : ℝ) : ℝ :=
  let bt := if x = 0 ∨ x = 1 then 0
    else Real.exp (logGamma (a + b) - logGamma a - logGamma b +
      a * Real.log x + b * Real.log (1 - x))
  if x < (a + 1) / (a + b + 2) then bt * betacf x a b / a
  else 1 - bt * betacf (1 - x) b a / b

/-- A hypothesis test result (`AnalysisScreen.tsx` line 77).  The statistic
`t` is an `EReal` because the source stores the IEEE `Infinity` sentinel in
it when the standard error is zero. -/
structure TTestResult where
  t : EReal
  df : ℝ
  p : ℝ

/-- `tTestIndependent` (`AnalysisScreen.tsx` lines 79-91). -/
noncomputable def tTestIndependent (sample1 sample2 : List ℝ) :
    Option TTestResult :=
  if sample1.length < 2 ∨ sample2.length < 2 then none
  else
    let n1 : ℝ := sample1.length
    let n2 : ℝ := sample2.length
    let mean1 := mean sample1
    let mean2 := mean sample2
    let std1 := stdDev sample1
    let std2 := stdDev sample2
    let pooledVar := ((n1 - 1) * std1 ^ 2 + (n2 - 1) * std2 ^ 2) / (n1 + n2 - 2)
    let se := Real.sqrt (pooledVar * (1 / n1 + 1 / n2))
    if se = 0 then some ⟨⊤, n1 + n2 - 2, 0⟩
    else
      let t := (mean1 - mean2) / se
      let df := n1 + n2 - 2
      let p := betinc (df / (df + t * t)) (df / 2) 0.5
      some ⟨(t : EReal), df, p⟩

/-- `tTestPaired` (`AnalysisScreen.tsx` lines 93-104).  The per-pair
differences `sample1.map((d, i) => d - sample2[i])` are `zipWith (· - ·)`
(the length guard has already ensured equal lengths). -/
noncomputable def tTestPaired (sample1 sample2 : List ℝ) :
    Option TTestResult :=
  if sample1.length ≠ sample2.length ∨ sample1.length < 2 then none
  else
    let n : ℝ := sample1.length
    let diffs := List.zipWith (fun d e => d - e) sample1 sample2
    let meanDiff := mean diffs
    let stdDiff := stdDev diffs
    if stdDiff = 0 then some ⟨⊤, n - 1, 0⟩
    else
      let t := meanDiff / (stdDiff / Real.sqrt n)
      let df := n - 1
      let p := betinc (df / (df + t * t)) (df / 2) 0.5
      some ⟨(t : EReal), df, p⟩

/-- `standardNormalCdf` (`AnalysisScreen.tsx` lines 108-116):
Abramowitz–Stegun rational approximation of the normal CDF. -/
noncomputable def standardNormalCdf (z : ℝ) : ℝ :=
  let p := 0.3275911
  let a1 := 0.254829592
  let a2 := -0.284496736
  let a3 := 1.421413741
  let a4 := -1.453152027
  let a5 := 1.061405429
  let sign : ℝ := if z < 0 then -1 else 1
  let x := |z| / Real.sqrt 2.0
  let t := 1.0 / (1.0 + p * x)
  let erf := 1.0 - (((((a5 * t + a4) * t) + a3) * t + a2) * t + a1) *
    Real.exp (-x * x)
  0.5 * (1.0 + sign * erf)

/-- `calculatePValue` (`AnalysisScreen.tsx` line 118). -/
noncomputable def calculatePValue (z : ℝ) : ℝ :=
  2 * (1 - standardNormalCdf |z|)

/-- `zTestForProportions` (`AnalysisScreen.tsx` lines 120-134). -/
noncomputable def zTestForProportions (success1 total1 success2 total2 : ℝ) :
    ℝ :=
  if total1 = 0 ∨ total2 = 0 then 1.0
  else
    let p1 := success1 / total1
    let p2 := success2 / total2
    let pPooled := (success1 + success2) / (total1 + total2)
    if pPooled = 0 ∨ pPooled = 1 then 1.0
    else
      let se := Real.sqrt (pPooled * (1 - pPooled) * (1 / total1 + 1 / total2))
      if se = 0 then 1.0
      else calculatePValue ((p1 - p2) / se)

/-- A reader (`types.ts`: `User`). -/
structure User where
  id : String
  name : String
  surname : String
  experience : String
  deriving DecidableEq

/-- The `allEvaluations` map: reader id → evaluation map. -/
abbrev AllEvaluations := List (String × Evaluations)

/-- One row of `analysisData.resultsByUser` (`AnalysisScreen.tsx` lines
285-321), without the `user` field the row is keyed by.  The source field
called partialMetrics is named `partMetrics` here. -/
structure ReaderResult where
  evaluatedCount : ℕ
  finalMetrics : AnalysisMetrics
  partMetrics : AnalysisMetrics
  finalAuc : ℚ
  pValueSensitivity : ℝ
  pValueSpecificity : ℝ

/-- Ascending sort of case-number keys (`.sort((a, b) => a - b)`). -/
def sortKeys (keys : List ℕ) : List ℕ :=
  keys.insertionSort (· ≤ ·)

/-- The body of the `allUsers.forEach` loop of `analysisData`
(`AnalysisScreen.tsx` lines 285-321).  The source locals partialCount,
partialKeys, partialEvals, partialCases and partialMetrics are named
partCount, partKeys, partEvals, partCases and partMetrics here. -/
noncomputable def resultRowForUser (cases : List CaseData)
    (allEvaluations : AllEvaluations) (cutoff : ℕ) (prevalence : ℚ)
    (comparisonPercentage : ℕ) (user : User) : ReaderResult :=
  let userEvals := (allEvaluations.lookup user.id).getD []
  let evaluatedKeys := sortKeys ((userEvals.map Prod.fst).filter fun k =>
    match userEvals.lookup k with
    | some e => decide (0 < e.viradsFinal)
    | none => false)
  if evaluatedKeys.length = 0 then
    ⟨0, ⟨0, 0, 0, 0⟩, ⟨0, 0, 0, 0⟩, 0.5, 1, 1⟩
  else
    let evaluatedCases := cases.filter fun c =>
      evaluatedKeys.contains c.caseNumber
    let finalMatrix := getMatrixForEvaluations userEvals evaluatedCases cutoff
    let finalMetrics := calculateMetrics finalMatrix prevalence
    let finalAuc := calculateAUC userEvals evaluatedCases
    let partCount := (⌈(evaluatedKeys.length * comparisonPercentage : ℚ) / 100⌉).toNat
    let partKeys := evaluatedKeys.take partCount
    let partEvals : Evaluations :=
      partKeys.filterMap fun key => (userEvals.lookup key).map fun e => (key, e)
    let partCases := cases.filter fun c => partKeys.contains c.caseNumber
    let partMatrix := getMatrixForEvaluations partEvals partCases cutoff
    let partMetrics := calculateMetrics partMatrix prevalence
    let pFinal := finalMatrix.tp + finalMatrix.fn
    let nFinal := finalMatrix.tn + finalMatrix.fp
    let pPart := partMatrix.tp + partMatrix.fn
    let nPart := partMatrix.tn + partMatrix.fp
    let pValueSensitivity := zTestForProportions (partMatrix.tp : ℝ) (pPart : ℝ)
      (finalMatrix.tp : ℝ) (pFinal : ℝ)
    let pValueSpecificity := zTestForProportions (partMatrix.tn : ℝ) (nPart : ℝ)
      (finalMatrix.tn : ℝ) (nFinal : ℝ)
    ⟨evaluatedKeys.length, finalMetrics, partMetrics, finalAuc,
      pValueSensitivity, pValueSpecificity⟩

/-- The `resultsByUser` array of `analysisData` (one row per user, in
order). -/
noncomputable def resultsByUser (allUsers : List User) (cases : List CaseData)
    (allEvaluations : AllEvaluations) (cutoff : ℕ) (prevalence : ℚ)
    (comparisonPercentage : ℕ) : List ReaderResult :=
  allUsers.map (resultRowForUser cases allEvaluations cutoff prevalence
    comparisonPercentage)

/-- `averageMetrics` of `analysisData` (`AnalysisScreen.tsx` lines 323-329):
group averages over the readers with at least one evaluated case, with the
`(validResults.length || 1)` denominator guard. -/
noncomputable def averageMetrics (allUsers : List User) (cases : List CaseData)
    (allEvaluations : AllEvaluations) (cutoff : ℕ) (prevalence : ℚ)
    (comparisonPercentage : ℕ) : AnalysisMetrics :=
  let validResults := (resultsByUser allUsers cases allEvaluations cutoff
    prevalence comparisonPercentage).filter fun r => decide (0 < r.evaluatedCount)
  let len : ℚ := if validResults.length = 0 then 1 else validResults.length
  ⟨(validResults.map fun r => r.finalMetrics.sensitivity).sum / len,
   (validResults.map fun r => r.finalMetrics.specificity).sum / len,
   (validResults.map fun r => r.finalMetrics.ppv).sum / len,
   (validResults.map fun r => r.finalMetrics.npv).sum / len⟩

lemma total_classifyCase (evaluations : Evaluations) (cutoff : ℕ)
    (matrix : ConfusionMatrixData) (c : CaseData) :
    (classifyCase evaluations cutoff matrix c).total =
      matrix.total + (if isClassified evaluations c then 1 else 0) := by
  unfold classifyCase isClassified
  cases h : evaluations.lookup c.caseNumber with
  | none => simp [ConfusionMatrixData.total]
  | some e =>
    by_cases h0 : e.viradsFinal = 0
    · simp [h0, ConfusionMatrixData.total]
    · have hpos : 0 < e.viradsFinal := Nat.pos_of_ne_zero h0
      by_cases hc : cutoff ≤ e.viradsFinal <;> cases hp : c.isCVMIPositive <;>
        simp [h0, hc, hp, hpos, ConfusionMatrixData.total] <;> omega

lemma total_foldl_classifyCase (evaluations : Evaluations) (cutoff : ℕ) :
    ∀ (cases : List CaseData) (init : ConfusionMatrixData),
      (cases.foldl (classifyCase evaluations cutoff) init).total =
        init.total + (cases.filter (isClassified evaluations)).length := by
  intro cases
  induction cases with
  | nil => intro init; simp
  | cons c cs ih =>
    intro init
    by_cases h : isClassified evaluations c <;>
      simp [List.foldl_cons, ih, total_classifyCase, h] <;> omega

/-- C2: for every evaluation map, case list and cutoff, the four confusion
matrix cells (non-negative by their `ℕ` type) sum to exactly the number of
cases of the case list that carry an evaluation with a non-sentinel
(`viradsFinal > 0`) final score; all other cases are skipped. -/
theorem matrix_cells_sum_to_classified_count (evaluations : Evaluations)
    (cases : List CaseData) (cutoff : ℕ) :
    (getMatrixForEvaluations evaluations cases cutoff).tp +
      (getMatrixForEvaluations evaluations cases cutoff).fp +
      (getMatrixForEvaluations evaluations cases cutoff).tn +
      (getMatrixForEvaluations evaluations cases cutoff).fn =
      (cases.filter (isClassified evaluations)).length := by
  have h := total_foldl_classifyCase evaluations cutoff cases ⟨0, 0, 0, 0⟩
  simpa [getMatrixForEvaluations, ConfusionMatrixData.total] using h

/-- C1: on the concrete scenario (cases 1: T1 negative, 2: T3 positive,
3: T2 positive, 4: Ta negative, scored 2, 4, 5, 1) the confusion matrix at
cutoff 3 is {tp 2, fp 0, tn 2, fn 0}, and the metrics computed from that
matrix have sensitivity 1 and specificity 1 (whatever the prevalence). -/
theorem scenario_matrix_and_metrics :
    getMatrixForEvaluations scenarioEvals scenarioCases 3 = ⟨2, 0, 2, 0⟩ ∧
      ∀ prevalence : ℚ,
        (calculateMetrics ⟨2, 0, 2, 0⟩ prevalence).sensitivity = 1 ∧
        (calculateMetrics ⟨2, 0, 2, 0⟩ prevalence).specificity = 1 := by
  constructor
  · decide
  · intro prevalence
    constructor <;> norm_num [calculateMetrics]

/-- C9: a confusion matrix with no errors (fn = 0, fp = 0, tp > 0, tn > 0)
evaluated at its own empirical prevalence (tp+fn)/(tp+fp+tn+fn) yields
PPV = 1 and NPV = 1. -/
theorem perfect_matrix_ppv_npv_one (matrix : ConfusionMatrixData)
    (hfn : matrix.fn = 0) (hfp : matrix.fp = 0)
    (htp : 0 < matrix.tp) (htn : 0 < matrix.tn) :
    (calculateMetrics matrix
        (((matrix.tp : ℚ) + matrix.fn) /
          ((matrix.tp : ℚ) + matrix.fp + matrix.tn + matrix.fn))).ppv = 1 ∧
    (calculateMetrics matrix
        (((matrix.tp : ℚ) + matrix.fn) /
          ((matrix.tp : ℚ) + matrix.fp + matrix.tn + matrix.fn))).npv = 1 := by
  obtain ⟨tp, fp, tn, fn⟩ := matrix
  simp only at hfn hfp htp htn
  subst hfn hfp
  have htpQ : (0 : ℚ) < tp := by exact_mod_cast htp
  have htnQ : (0 : ℚ) < tn := by exact_mod_cast htn
  have hsum : (0 : ℚ) < (tp : ℚ) + tn := by linarith
  have hprev : (0 : ℚ) < (tp : ℚ) / ((tp : ℚ) + tn) := div_pos htpQ hsum
  have hprevlt : (tp : ℚ) / ((tp : ℚ) + tn) < 1 := by
    rw [div_lt_one hsum]; linarith
  have h1m : (0 : ℚ) < 1 - (tp : ℚ) / ((tp : ℚ) + tn) := by linarith
  simp only [calculateMetrics, Nat.cast_zero, add_zero, zero_add]
  rw [if_pos htpQ, if_pos htnQ, div_self (ne_of_gt htpQ), div_self (ne_of_gt htnQ)]
  simp only [one_mul, sub_self, zero_mul, mul_zero, add_zero]
  rw [if_pos hprev, div_self (ne_of_gt hprev), if_pos h1m, div_self (ne_of_gt h1m)]
  exact ⟨rfl, rfl⟩

/-- Witness for C9 at the concrete matrix {tp 1, fp 0, tn 1, fn 0}. -/
theorem perfect_matrix_ppv_npv_one_witness :
    (calculateMetrics ⟨1, 0, 1, 0⟩
        ((((1 : ℕ) : ℚ) + ((0 : ℕ) : ℚ)) /
          (((1 : ℕ) : ℚ) + ((0 : ℕ) : ℚ) + ((1 : ℕ) : ℚ) + ((0 : ℕ) : ℚ)))).ppv = 1 ∧
    (calculateMetrics ⟨1, 0, 1, 0⟩
        ((((1 : ℕ) : ℚ) + ((0 : ℕ) : ℚ)) /
          (((1 : ℕ) : ℚ) + ((0 : ℕ) : ℚ) + ((1 : ℕ) : ℚ) + ((0 : ℕ) : ℚ)))).npv = 1 :=
  perfect_matrix_ppv_npv_one ⟨1, 0, 1, 0⟩ rfl rfl (by decide) (by decide)

lemma rocSensitivity_bounds (m : ConfusionMatrixData) :
    0 ≤ rocSensitivity m ∧ rocSensitivity m ≤ 1 := by
  unfold rocSensitivity
  by_cases h : m.tp + m.fn = 0
  · have htp : m.tp = 0 := by omega
    simp [h, htp]
  · rw [if_neg h]
    have hpos : (0 : ℚ) < ((m.tp + m.fn : ℕ) : ℚ) := by
      exact_mod_cast Nat.pos_of_ne_zero h
    refine ⟨div_nonneg (by positivity) hpos.le, ?_⟩
    rw [div_le_one hpos]
    exact_mod_cast Nat.le_add_right m.tp m.fn

lemma rocSpecificity_bounds (m : ConfusionMatrixData) :
    0 ≤ rocSpecificity m ∧ rocSpecificity m ≤ 1 := by
  unfold rocSpecificity
  by_cases h : m.tn + m.fp = 0
  · have htn : m.tn = 0 := by omega
    simp [h, htn]
  · rw [if_neg h]
    have hpos : (0 : ℚ) < ((m.tn + m.fp : ℕ) : ℚ) := by
      exact_mod_cast Nat.pos_of_ne_zero h
    refine ⟨div_nonneg (by positivity) hpos.le, ?_⟩
    rw [div_le_one hpos]
    exact_mod_cast Nat.le_add_right m.tn m.fp

lemma mem_of_mem_dedupPoints {x : RocPoint} :
    ∀ {l : List RocPoint}, x ∈ dedupPoints l → x ∈ l := by
  intro l
  induction l using dedupPoints.induct with
  | case1 => simp [dedupPoints]
  | case2 p ps ih =>
    rw [dedupPoints]
    intro hx
    rcases List.mem_cons.mp hx with rfl | hx
    · exact List.mem_cons_self _ _
    · exact List.mem_cons_of_mem _ (List.mem_of_mem_filter (ih hx))

lemma polyArea_bounds :
    ∀ (l : List RocPoint) (p : RocPoint),
      (p :: l).Chain' fprLE →
      (∀ q ∈ p :: l, 0 ≤ q.2 ∧ q.2 ≤ 1) →
      0 ≤ polyArea (p :: l) ∧
        polyArea (p :: l) ≤ ((p :: l).getLast (by simp)).1 - p.1 := by
  intro l
  induction l with
  | nil => intro p _ _; simp [polyArea]
  | cons q rest ih =>
    intro p hchain hbox
    have hpq : fprLE p q := (List.chain'_cons.mp hchain).1
    have hchain2 : (q :: rest).Chain' fprLE := (List.chain'_cons.mp hchain).2
    have hbox2 : ∀ x ∈ q :: rest, 0 ≤ x.2 ∧ x.2 ≤ 1 := fun x hx =>
      hbox x (List.mem_cons_of_mem p hx)
    obtain ⟨ihl, ihr⟩ := ih q hchain2 hbox2
    have hp2 := hbox p (List.mem_cons_self p _)
    have hq2 := hbox q (List.mem_cons_of_mem p (List.mem_cons_self q _))
    have hdxy : 0 ≤ q.1 - p.1 := by
      have := hpq
      unfold fprLE at this
      linarith
    have hterm0 : 0 ≤ (q.1 - p.1) * (p.2 + q.2) / 2 := by
      apply div_nonneg _ (by norm_num)
      exact mul_nonneg hdxy (by linarith [hp2.1, hq2.1])
    have hterm1 : (q.1 - p.1) * (p.2 + q.2) / 2 ≤ q.1 - p.1 := by
      rw [div_le_iff (by norm_num : (0 : ℚ) < 2)]
      nlinarith [hp2.2, hq2.2]
    have hlast : ((p :: q :: rest).getLast (by simp)) =
        ((q :: rest).getLast (by simp)) := by
      rw [List.getLast_cons]
    constructor
    · show 0 ≤ (q.1 - p.1) * (p.2 + q.2) / 2 + polyArea (q :: rest)
      linarith
    · show (q.1 - p.1) * (p.2 + q.2) / 2 + polyArea (q :: rest) ≤ _
      rw [hlast]
      linarith

lemma polyArea_sorted_box_bounds (l0 : List RocPoint)
    (hbox : ∀ x ∈ l0, (0 ≤ x.1 ∧ x.1 ≤ 1) ∧ (0 ≤ x.2 ∧ x.2 ≤ 1)) :
    0 ≤ polyArea (sortByFpr (dedupPoints l0)) ∧
      polyArea (sortByFpr (dedupPoints l0)) ≤ 1 := by
  have hmem : ∀ x ∈ sortByFpr (dedupPoints l0),
      (0 ≤ x.1 ∧ x.1 ≤ 1) ∧ (0 ≤ x.2 ∧ x.2 ≤ 1) := by
    intro x hx
    rw [sortByFpr, List.mem_insertionSort] at hx
    exact hbox x (mem_of_mem_dedupPoints hx)
  have hchain : (sortByFpr (dedupPoints l0)).Chain' fprLE := by
    rw [sortByFpr]
    exact (List.sorted_insertionSort fprLE (dedupPoints l0)).chain'
  cases hl : sortByFpr (dedupPoints l0) with
  | nil => simp [polyArea]
  | cons p rest =>
    rw [hl] at hchain hmem
    have hboxl : ∀ q ∈ p :: rest, 0 ≤ q.2 ∧ q.2 ≤ 1 := by
      intro q hq
      exact (hmem q hq).2
    obtain ⟨h0, h1⟩ := polyArea_bounds rest p hchain hboxl
    refine ⟨h0, le_trans h1 ?_⟩
    have hlastmem := hmem ((p :: rest).getLast (by simp))
      (List.getLast_mem (by simp))
    have hheadmem := hmem p (List.mem_cons_self p rest)
    linarith [hlastmem.1.2, hheadmem.1.1]

lemma aucRocPoints_box (evaluations : Evaluations)
    (relevantCases : List CaseData) :
    ∀ x ∈ aucRocPoints evaluations relevantCases,
      (0 ≤ x.1 ∧ x.1 ≤ 1) ∧ (0 ≤ x.2 ∧ x.2 ≤ 1) := by
  intro x hx
  rw [aucRocPoints] at hx
  rcases List.mem_cons.mp hx with rfl | hx
  · norm_num
  rcases List.mem_append.mp hx with hx | hx
  · obtain ⟨cutoff, -, rfl⟩ := List.mem_map.mp hx
    have hs := rocSensitivity_bounds
      (getMatrixForEvaluations evaluations relevantCases cutoff)
    have hp := rocSpecificity_bounds
      (getMatrixForEvaluations evaluations relevantCases cutoff)
    refine ⟨⟨?_, ?_⟩, hs⟩ <;> dsimp only <;> linarith [hp.1, hp.2]
  · have hx1 : x = (1, 1) := by simpa using hx
    subst hx1
    norm_num

/-- C6: the AUC is always within [0,1]; and in the degenerate situations
(no relevant case, no positive relevant case, or no negative relevant case)
it is exactly 0.5. -/
theorem calculateAUC_bounds_and_degenerate (evaluations : Evaluations)
    (cases : List CaseData) :
    (0 ≤ calculateAUC evaluations cases ∧ calculateAUC evaluations cases ≤ 1) ∧
      ((aucRelevantCases evaluations cases).length = 0 ∨
        ((aucRelevantCases evaluations cases).filter fun c =>
          c.isCVMIPositive).length = 0 ∨
        (aucRelevantCases evaluations cases).length -
          ((aucRelevantCases evaluations cases).filter fun c =>
            c.isCVMIPositive).length = 0 →
        calculateAUC evaluations cases = 0.5) := by
  by_cases h1 : (aucRelevantCases evaluations cases).length = 0
  · have hv : calculateAUC evaluations cases = 0.5 := by
      simp only [calculateAUC]
      rw [if_pos h1]
    rw [hv]
    norm_num
  · by_cases h2 : ((aucRelevantCases evaluations cases).filter fun c =>
        c.isCVMIPositive).length = 0 ∨
        (aucRelevantCases evaluations cases).length -
          ((aucRelevantCases evaluations cases).filter fun c =>
            c.isCVMIPositive).length = 0
    · have hv : calculateAUC evaluations cases = 0.5 := by
        simp only [calculateAUC]
        rw [if_neg h1, if_pos h2]
      rw [hv]
      norm_num
    · have hv : calculateAUC evaluations cases =
          polyArea (sortByFpr (dedupPoints (aucRocPoints evaluations
            (aucRelevantCases evaluations cases)))) := by
        simp only [calculateAUC]
        rw [if_neg h1, if_neg h2]
      rw [hv]
      refine ⟨polyArea_sorted_box_bounds _ (aucRocPoints_box _ _), ?_⟩
      intro hdeg
      rcases hdeg with h | h | h
      · exact absurd h h1
      · exact absurd (Or.inl h) h2
      · exact absurd (Or.inr h) h2

/-- Witness for C6 at the empty input: the bounds hold and the degenerate
policy yields exactly 0.5. -/
theorem calculateAUC_bounds_and_degenerate_witness :
    (0 ≤ calculateAUC [] [] ∧ calculateAUC [] [] ≤ 1) ∧
      calculateAUC [] [] = 0.5 := by
  obtain ⟨hb, hd⟩ := calculateAUC_bounds_and_degenerate [] []
  exact ⟨hb, hd (Or.inl (by simp [aucRelevantCases]))⟩

lemma lookup_mem_keys : ∀ {l : Evaluations} {k : ℕ} {e : Evaluation},
    l.lookup k = some e → k ∈ l.map Prod.fst := by
  intro l
  induction l with
  | nil => intro k e h; simp [List.lookup] at h
  | cons kv rest ih =>
    intro k e h
    by_cases hk : k = kv.1
    · simp [hk]
    · have hrw : List.lookup k (kv :: rest) = List.lookup k rest := by
        obtain ⟨k1, v⟩ := kv
        simp only at hk
        have hbeq : (k == k1) = false := by simpa using hk
        simp [List.lookup, hbeq]
      rw [hrw] at h
      simp [ih h]

lemma mem_aucEvaluatedCaseNumbers {evaluations : Evaluations} {k : ℕ} :
    k ∈ aucEvaluatedCaseNumbers evaluations ↔
      ∃ e, evaluations.lookup k = some e ∧ 0 < e.viradsFinal := by
  unfold aucEvaluatedCaseNumbers
  rw [List.mem_filter]
  constructor
  · rintro ⟨hmem, hpred⟩
    cases hl : evaluations.lookup k with
    | none => rw [hl] at hpred; simp at hpred
    | some e =>
      rw [hl] at hpred
      simp at hpred
      exact ⟨e, rfl, hpred⟩
  · rintro ⟨e, hl, hpos⟩
    refine ⟨lookup_mem_keys hl, ?_⟩
    rw [hl]
    simpa using hpos

lemma foldl_classifyCase_perfect (evaluations : Evaluations) (cutoff : ℕ)
    (hc2 : 2 ≤ cutoff) (hc5 : cutoff ≤ 5) :
    ∀ (cs : List CaseData) (init : ConfusionMatrixData),
      (∀ c ∈ cs, ∃ e, evaluations.lookup c.caseNumber = some e ∧
        e.viradsFinal = if c.isCVMIPositive then 5 else 1) →
      cs.foldl (classifyCase evaluations cutoff) init =
        ⟨init.tp + (cs.filter fun c => c.isCVMIPositive).length, init.fp,
          init.tn + (cs.filter fun c => !c.isCVMIPositive).length, init.fn⟩ := by
  intro cs
  induction cs with
  | nil => intro init _; simp
  | cons c rest ih =>
    intro init hall
    obtain ⟨e, hl, hv⟩ := hall c (List.mem_cons_self c rest)
    have hrest : ∀ x ∈ rest, ∃ e, evaluations.lookup x.caseNumber = some e ∧
        e.viradsFinal = if x.isCVMIPositive then 5 else 1 :=
      fun x hx => hall x (List.mem_cons_of_mem c hx)
    rw [List.foldl_cons]
    cases hcp : c.isCVMIPositive with
    | true =>
      rw [hcp] at hv
      simp only [if_true] at hv
      have hclass : classifyCase evaluations cutoff init c =
          { init with tp := init.tp + 1 } := by
        unfold classifyCase
        rw [hl]
        dsimp only
        rw [hv]
        rw [if_neg (by norm_num : ¬(5 : ℕ) = 0), if_pos hc5, if_pos hcp]
      rw [hclass, ih _ hrest]
      simp [List.filter_cons, hcp, ConfusionMatrixData.mk.injEq]
      omega
    | false =>
      rw [hcp] at hv
      simp only [Bool.false_eq_true, if_false] at hv
      have hclass : classifyCase evaluations cutoff init c =
          { init with tn := init.tn + 1 } := by
        unfold classifyCase
        rw [hl]
        dsimp only
        rw [hv]
        rw [if_neg (by norm_num : ¬(1 : ℕ) = 0),
          if_neg (by omega : ¬cutoff ≤ 1), if_neg (by simp [hcp])]
      rw [hclass, ih _ hrest]
      simp [List.filter_cons, hcp, ConfusionMatrixData.mk.injEq]
      omega

lemma polyArea_perfect_compute :
    polyArea (sortByFpr (dedupPoints
      [((0 : ℚ), (0 : ℚ)), (0, 1), (0, 1), (0, 1), (0, 1), (1, 1)])) = 1 := by
  norm_num [dedupPoints, sortByFpr, polyArea, List.insertionSort,
    List.orderedInsert, List.filter, fprLE, Prod.mk.injEq, Prod.ext_iff]

/-- C5: if every positive case is scored 5 and every negative case is scored
1, and at least one positive and one negative case carry an evaluation, then
`calculateAUC` returns exactly 1. -/
theorem calculateAUC_perfect_separation (evaluations : Evaluations)
    (cases : List CaseData)
    (hscore : ∀ c ∈ cases, ∀ e, evaluations.lookup c.caseNumber = some e →
      e.viradsFinal = if c.isCVMIPositive then 5 else 1)
    (hpos : ∃ c ∈ cases, c.isCVMIPositive = true ∧
      (evaluations.lookup c.caseNumber).isSome)
    (hneg : ∃ c ∈ cases, c.isCVMIPositive = false ∧
      (evaluations.lookup c.caseNumber).isSome) :
    calculateAUC evaluations cases = 1 := by
  classical
  set R := aucRelevantCases evaluations cases with hRdef
  -- every case of the case list with an evaluation is a relevant case
  have hmemR : ∀ c ∈ cases, (evaluations.lookup c.caseNumber).isSome →
      c ∈ R := by
    intro c hc hsome
    obtain ⟨e, he⟩ := Option.isSome_iff_exists.mp hsome
    have hv := hscore c hc e he
    have hk : c.caseNumber ∈ aucEvaluatedCaseNumbers evaluations := by
      rw [mem_aucEvaluatedCaseNumbers]
      refine ⟨e, he, ?_⟩
      rw [hv]
      cases c.isCVMIPositive <;> norm_num
    rw [hRdef]
    unfold aucRelevantCases
    rw [List.mem_filter]
    exact ⟨hc, by simpa using hk⟩
  -- every relevant case has an evaluation scored by the separation rule
  have hallR : ∀ c ∈ R, ∃ e, evaluations.lookup c.caseNumber = some e ∧
      e.viradsFinal = if c.isCVMIPositive then 5 else 1 := by
    intro c hcR
    have hc : c ∈ cases := List.mem_of_mem_filter hcR
    have hk : c.caseNumber ∈ aucEvaluatedCaseNumbers evaluations := by
      have := (List.mem_filter.mp hcR).2
      simpa using this
    obtain ⟨e, he, -⟩ := mem_aucEvaluatedCaseNumbers.mp hk
    exact ⟨e, he, hscore c hc e he⟩
  obtain ⟨cp, hcpmem, hcppos, hcpsome⟩ := hpos
  obtain ⟨cn, hcnmem, hcnneg, hcnsome⟩ := hneg
  have hcpR : cp ∈ R := hmemR cp hcpmem hcpsome
  have hcnR : cn ∈ R := hmemR cn hcnmem hcnsome
  set P := (R.filter fun c => c.isCVMIPositive).length with hPdef
  set N := (R.filter fun c => !c.isCVMIPositive).length with hNdef
  have hP : P ≠ 0 := by
    have : cp ∈ R.filter fun c => c.isCVMIPositive :=
      List.mem_filter.mpr ⟨hcpR, by simp [hcppos]⟩
    have := List.length_pos.mpr (List.ne_nil_of_mem this)
    omega
  have hN : N ≠ 0 := by
    have : cn ∈ R.filter fun c => !c.isCVMIPositive :=
      List.mem_filter.mpr ⟨hcnR, by simp [hcnneg]⟩
    have := List.length_pos.mpr (List.ne_nil_of_mem this)
    omega
  have hsplit : R.length = P + N := by
    rw [hPdef, hNdef]
    exact List.length_eq_length_filter_add _
  have hR0 : ¬R.length = 0 := by omega
  have hguard : ¬(P = 0 ∨ R.length - P = 0) := by
    push_neg
    omega
  -- the confusion matrix at each cutoff in {2,3,4,5}
  have hmat : ∀ cutoff : ℕ, 2 ≤ cutoff → cutoff ≤ 5 →
      getMatrixForEvaluations evaluations R cutoff = ⟨P, 0, N, 0⟩ := by
    intro cutoff h2 h5
    unfold getMatrixForEvaluations
    rw [foldl_classifyCase_perfect evaluations cutoff h2 h5 R ⟨0, 0, 0, 0⟩ hallR]
    simp [hPdef, hNdef]
  have hsens : rocSensitivity ⟨P, 0, N, 0⟩ = 1 := by
    unfold rocSensitivity
    simp only [add_zero]
    rw [if_neg hP]
    exact div_self (by exact_mod_cast hP)
  have hspec : rocSpecificity ⟨P, 0, N, 0⟩ = 1 := by
    unfold rocSpecificity
    simp only [add_zero]
    rw [if_neg hN]
    exact div_self (by exact_mod_cast hN)
  have hroc : aucRocPoints evaluations R =
      [((0 : ℚ), (0 : ℚ)), (0, 1), (0, 1), (0, 1), (0, 1), (1, 1)] := by
    rw [aucRocPoints]
    simp only [List.map_cons, List.map_nil]
    rw [hmat 2 (by norm_num) (by norm_num), hmat 3 (by norm_num) (by norm_num),
      hmat 4 (by norm_num) (by norm_num), hmat 5 (by norm_num) (by norm_num)]
    rw [hsens, hspec]
    norm_num
  have hv : calculateAUC evaluations cases =
      polyArea (sortByFpr (dedupPoints (aucRocPoints evaluations R))) := by
    simp only [calculateAUC, ← hRdef, ← hPdef]
    rw [if_neg hR0, if_neg hguard]
  rw [hv, hroc, polyArea_perfect_compute]

/-- Witness for C5: two cases, the positive one scored 5, the negative one
scored 1; the AUC is exactly 1. -/
theorem calculateAUC_perfect_separation_witness :
    calculateAUC [(1, evalWithFinal 5), (2, evalWithFinal 1)]
      [⟨1, .T2, true⟩, ⟨2, .Ta, false⟩] = 1 := by
  apply calculateAUC_perfect_separation
  · intro c hc e he
    rcases List.mem_cons.mp hc with rfl | hc
    · have he5 : e = evalWithFinal 5 := by
        simp [List.lookup] at he
        exact he.symm
      subst he5
      rfl
    · rcases List.mem_cons.mp hc with rfl | hc
      · have he1 : e = evalWithFinal 1 := by
          simp [List.lookup] at he
          exact he.symm
        subst he1
        rfl
      · simp at hc
  · exact ⟨⟨1, .T2, true⟩, by simp, rfl, by simp [List.lookup]⟩
  · exact ⟨⟨2, .Ta, false⟩, by simp, rfl, by simp [List.lookup]⟩

/-- C7: `tTestIndependent` yields no result exactly when either sample has
fewer than 2 observations, and `tTestPaired` yields no result exactly when
the samples have different lengths or fewer than 2 pairs; in every other
case each yields a result object. -/
theorem tTest_none_iff (sample1 sample2 : List ℝ) :
    (tTestIndependent sample1 sample2 = none ↔
      sample1.length < 2 ∨ sample2.length < 2) ∧
    (tTestPaired sample1 sample2 = none ↔
      sample1.length ≠ sample2.length ∨ sample1.length < 2) := by
  constructor
  · constructor
    · intro h
      by_contra hc
      simp only [tTestIndependent, if_neg hc] at h
      split at h <;> exact Option.noConfusion h
    · intro hc
      rw [tTestIndependent, if_pos hc]
  · constructor
    · intro h
      by_contra hc
      simp only [tTestPaired, if_neg hc] at h
      split at h <;> exact Option.noConfusion h
    · intro hc
      rw [tTestPaired, if_pos hc]

/-- Witness for C7: a too-short sample yields no result; two well-sized
samples yield a result. -/
theorem tTest_none_iff_witness :
    tTestIndependent [(1 : ℝ)] [(1 : ℝ), 2] = none ∧
      tTestPaired [(1 : ℝ), 2] [(3 : ℝ), 4] ≠ none := by
  constructor
  · exact (tTest_none_iff [(1 : ℝ)] [(1 : ℝ), 2]).1.mpr (Or.inl (by norm_num))
  · intro h
    rcases (tTest_none_iff [(1 : ℝ), 2] [(3 : ℝ), 4]).2.mp h with h1 | h1 <;>
      simp at h1

/-- C8: on equal-length samples with at least 2 pairs whose per-pair
differences have zero sample standard deviation (in particular two identical
samples), `tTestPaired` returns the sentinel: infinite statistic (⊤),
df = n − 1, p = 0, instead of failing on the zero standard error. -/
theorem tTestPaired_zero_variance (sample1 sample2 : List ℝ)
    (hlen : sample1.length = sample2.length) (h2 : 2 ≤ sample1.length)
    (hsd : stdDev (List.zipWith (fun d e => d - e) sample1 sample2) = 0) :
    tTestPaired sample1 sample2 =
      some ⟨⊤, (sample1.length : ℝ) - 1, 0⟩ := by
  rw [tTestPaired, if_neg (by push_neg; exact ⟨hlen, by omega⟩)]
  simp [hsd]

/-- Witness for C8 on the identical samples [1,2] and [1,2]. -/
theorem tTestPaired_zero_variance_witness :
    tTestPaired [(1 : ℝ), 2] [(1 : ℝ), 2] =
      some ⟨⊤, ((List.length [(1 : ℝ), 2] : ℕ) : ℝ) - 1, 0⟩ := by
  apply tTestPaired_zero_variance [(1 : ℝ), 2] [(1 : ℝ), 2] rfl (by norm_num)
  have hzip : List.zipWith (fun d e => d - e) [(1 : ℝ), 2] [(1 : ℝ), 2] =
      [0, 0] := by norm_num
  rw [hzip]
  have hmean : mean [(0 : ℝ), 0] = 0 := by
    simp [mean]
  simp [stdDev, hmean]

/-- Shared computation: the two-tailed p-value of z = 0 under the
Abramowitz–Stegun approximation is exactly 0.999999999 in exact arithmetic,
because the five coefficients sum to 0.999999999 rather than 1. -/
lemma calculatePValue_zero : calculatePValue 0 = 0.999999999 := by
  simp only [calculatePValue, standardNormalCdf, abs_zero, zero_div]
  norm_num [Real.exp_zero]

/-- Shared computation behind C3: the z-test on equal non-degenerate
proportions returns `calculatePValue 0` = 0.999999999. -/
lemma zTest_equal_proportions_core (success1 total1 success2 total2 : ℝ)
    (h1 : 0 < total1) (h2 : 0 < total2)
    (heq : success1 / total1 = success2 / total2)
    (hp0 : 0 < (success1 + success2) / (total1 + total2))
    (hp1 : (success1 + success2) / (total1 + total2) < 1) :
    zTestForProportions success1 total1 success2 total2 = 0.999999999 := by
  simp only [zTestForProportions]
  rw [if_neg (by push_neg; exact ⟨ne_of_gt h1, ne_of_gt h2⟩)]
  rw [if_neg (by push_neg; exact ⟨ne_of_gt hp0, ne_of_lt hp1⟩)]
  have hse : Real.sqrt ((success1 + success2) / (total1 + total2) *
      (1 - (success1 + success2) / (total1 + total2)) *
      (1 / total1 + 1 / total2)) ≠ 0 := by
    apply ne_of_gt
    apply Real.sqrt_pos.mpr
    have hq : 0 < 1 - (success1 + success2) / (total1 + total2) := by linarith
    have hinv : 0 < 1 / total1 + 1 / total2 := by positivity
    positivity
  rw [if_neg hse, heq, sub_self, zero_div, calculatePValue_zero]

/-- C3 (amended): with positive totals, equal proportions and pooled
proportion strictly inside (0,1), the z statistic is 0 but the returned
two-tailed p-value is exactly 0.999999999 = 1 − 10⁻⁹ (in exact arithmetic),
not 1: the Abramowitz–Stegun coefficients sum to 0.999999999. -/
theorem zTest_equal_proportions (success1 total1 success2 total2 : ℝ)
    (h1 : 0 < total1) (h2 : 0 < total2)
    (heq : success1 / total1 = success2 / total2)
    (hp0 : 0 < (success1 + success2) / (total1 + total2))
    (hp1 : (success1 + success2) / (total1 + total2) < 1) :
    zTestForProportions success1 total1 success2 total2 = 0.999999999 :=
  zTest_equal_proportions_core success1 total1 success2 total2 h1 h2 heq hp0 hp1

/-- Witness for C3 (amended) at (10, 20, 10, 20). -/
theorem zTest_equal_proportions_witness :
    zTestForProportions 10 20 10 20 = 0.999999999 :=
  zTest_equal_proportions 10 20 10 20 (by norm_num) (by norm_num) rfl
    (by norm_num) (by norm_num)

/-- C3 counterexample: `zTestForProportions(10, 20, 10, 20)` does not return
exactly 1.0. -/
theorem zTest_ten_twenty_ne_one : zTestForProportions 10 20 10 20 ≠ 1 := by
  rw [zTest_equal_proportions_core 10 20 10 20 (by norm_num) (by norm_num) rfl
    (by norm_num) (by norm_num)]
  norm_num

/-- Helper for C4: on (0, 0.5) the reflection branch of `logGamma` returns
the exponential of the log-form reflection value (that is, (an approximation
of) Γ(x) itself rather than log Γ(x)). -/
lemma logGamma_lt_half_eq_exp (x : ℝ) (hx0 : 0 < x) (hx : x < 0.5) :
    logGamma x =
      Real.exp (Real.log (Real.pi / Real.sin (Real.pi * x)) -
        logGamma (1 - x)) := by
  have hs : 0 < Real.sin (Real.pi * x) := by
    apply Real.sin_pos_of_pos_of_lt_pi
    · positivity
    · nlinarith [Real.pi_gt_three]
  have hlog1x : logGamma (1 - x) = lanczosLogGamma (1 - x) := by
    rw [logGamma, if_neg (by norm_num at hx ⊢; linarith)]
  rw [logGamma, if_pos hx, hlog1x, Real.exp_sub,
    Real.exp_log (by positivity : 0 < Real.pi / Real.sin (Real.pi * x)),
    div_div]

/-- C4: the log-form reflection identity claimed for `logGamma` fails at
x = 0.25 (and in fact everywhere on (0, 0.5)): the x < 0.5 branch forgets
the logarithm and returns the exponential of the log-form value, and
exp y > y for every y. -/
theorem logGamma_reflection_log_form_fails :
    logGamma 0.25 ≠
      Real.log (Real.pi / Real.sin (Real.pi * 0.25)) - logGamma (1 - 0.25) := by
  have h := logGamma_lt_half_eq_exp 0.25 (by norm_num) (by norm_num)
  rw [h]
  set R := Real.log (Real.pi / Real.sin (Real.pi * 0.25)) - logGamma (1 - 0.25)
  have hexp := Real.add_one_le_exp R
  intro hc
  linarith

lemma mem_of_lookup_eq_some : ∀ {l : Evaluations} {k : ℕ} {e : Evaluation},
    l.lookup k = some e → (k, e) ∈ l := by
  intro l
  induction l with
  | nil => intro k e h; simp [List.lookup] at h
  | cons kv rest ih =>
    intro k e h
    obtain ⟨k1, v⟩ := kv
    by_cases hk : k = k1
    · subst hk
      simp [List.lookup] at h
      simp [h]
    · have hbeq : (k == k1) = false := by simpa using hk
      simp only [List.lookup, hbeq] at h
      exact List.mem_cons_of_mem _ (ih h)

lemma evaluatedKeys_nil (userEvals : Evaluations)
    (h : ∀ kv ∈ userEvals, kv.2.viradsFinal = 0) :
    ((userEvals.map Prod.fst).filter fun k =>
      match userEvals.lookup k with
      | some e => decide (0 < e.viradsFinal)
      | none => false) = [] := by
  rw [List.filter_eq_nil]
  intro k hk
  cases hl : userEvals.lookup k with
  | none => simp [hl]
  | some e =>
    have he0 := h (k, e) (mem_of_lookup_eq_some hl)
    simp only at he0
    simp [hl, he0]

/-- C10: a reader whose evaluation map has no non-sentinel final score gets
the fixed default row (evaluatedCount 0, zero final and partial metrics,
AUC 0.5, both p-values 1) and is excluded from the group average metrics. -/
theorem no_evaluations_default_row (cases : List CaseData)
    (allEvaluations : AllEvaluations) (cutoff : ℕ) (prevalence : ℚ)
    (comparisonPercentage : ℕ) (allUsers : List User) (user : User)
    (h : ∀ kv ∈ (allEvaluations.lookup user.id).getD [],
      kv.2.viradsFinal = 0) :
    resultRowForUser cases allEvaluations cutoff prevalence
        comparisonPercentage user =
      ⟨0, ⟨0, 0, 0, 0⟩, ⟨0, 0, 0, 0⟩, 0.5, 1, 1⟩ ∧
    averageMetrics (allUsers ++ [user]) cases allEvaluations cutoff
        prevalence comparisonPercentage =
      averageMetrics allUsers cases allEvaluations cutoff prevalence
        comparisonPercentage := by
  have hkeys := evaluatedKeys_nil ((allEvaluations.lookup user.id).getD []) h
  have hrow : resultRowForUser cases allEvaluations cutoff prevalence
      comparisonPercentage user =
      ⟨0, ⟨0, 0, 0, 0⟩, ⟨0, 0, 0, 0⟩, 0.5, 1, 1⟩ := by
    simp only [resultRowForUser, hkeys]
    simp [sortKeys]
  refine ⟨hrow, ?_⟩
  have hres : resultsByUser (allUsers ++ [user]) cases allEvaluations cutoff
      prevalence comparisonPercentage =
      resultsByUser allUsers cases allEvaluations cutoff prevalence
        comparisonPercentage ++
        [⟨0, ⟨0, 0, 0, 0⟩, ⟨0, 0, 0, 0⟩, 0.5, 1, 1⟩] := by
    unfold resultsByUser
    rw [List.map_append]
    simp [hrow]
  unfold averageMetrics
  rw [hres, List.filter_append]
  simp

/-- Witness for C10: a reader absent from the evaluations map gets the
default row and leaves the (empty-group) averages unchanged. -/
theorem no_evaluations_default_row_witness :
    resultRowForUser [] [] 4 0 50 ⟨"r1", "a", "b", "c"⟩ =
      ⟨0, ⟨0, 0, 0, 0⟩, ⟨0, 0, 0, 0⟩, 0.5, 1, 1⟩ ∧
    averageMetrics ([] ++ [⟨"r1", "a", "b", "c"⟩]) [] [] 4 0 50 =
      averageMetrics [] [] [] 4 0 50 :=
  no_evaluations_default_row [] [] 4 0 50 [] ⟨"r1", "a", "b", "c"⟩ (by simp)

end CursoVirads
